import Mathlib

/-!
Verification of the lens-historical-data-avail pipeline.

The build phase (src/build_chunks.py) greedily packs an ordered stream of
serialized record lines into size-bounded chunks; the submission phase
(src/post_chunks_turboDA.py, src/post_chunks_seq_confirm.py,
src/post_chunks_turboDA_async.py) uploads the chunks, resumes from a progress
log, waits for finality, and writes its durable log in chunk-id order.

Bytes are modelled as natural numbers and byte strings as lists of naturals;
chunk boundaries, ids, sizes and concatenation depend only on line lengths and
contents, which this embedding preserves exactly.
-/

namespace LensDA

/-- The size ceiling from src/build_chunks.py: CHUNK_BYTES = 1_000_000 - 1024. -/
def CHUNK_BYTES : Nat := 1000000 - 1024

/-- A chunk written by the build phase: its assigned id and its exact bytes. -/
structure Chunk where
  chunk_id : Nat
  data : List Nat
deriving Repr, DecidableEq

/-- The packing loop of src/build_chunks.py main: for each serialized line, if
appending it to the running buffer would exceed the ceiling, the buffer is
flushed as a chunk (even when empty) and the line starts a fresh buffer;
at end of stream a non-empty buffer is flushed as the final chunk. -/
def buildLoop (ceiling : Nat) : List (List Nat) → Nat → List Nat → List Chunk
  | [], cid, buf => if buf = [] then [] else [⟨cid, buf⟩]
  | line :: rest, cid, buf =>
    if buf.length + line.length > ceiling then
      ⟨cid, buf⟩ :: buildLoop ceiling rest (cid + 1) line
    else
      buildLoop ceiling rest cid (buf ++ line)

/-- The whole build phase: chunk ids start at 1, the buffer starts empty. -/
def buildChunks (ceiling : Nat) (lines : List (List Nat)) : List Chunk :=
  buildLoop ceiling lines 1 []

theorem buildLoop_flatten (c : Nat) (lines : List (List Nat)) (cid : Nat) (buf : List Nat) :
    ((buildLoop c lines cid buf).map Chunk.data).flatten = buf ++ lines.flatten := by
  induction lines generalizing cid buf with
  | nil =>
    by_cases h : buf = [] <;> simp [buildLoop, h]
  | cons line rest ih =>
    by_cases h : buf.length + line.length > c
    · simp [buildLoop, h, ih]
    · simp [buildLoop, h, ih]

theorem buildLoop_ids (c : Nat) (lines : List (List Nat)) (cid : Nat) (buf : List Nat) :
    (buildLoop c lines cid buf).map Chunk.chunk_id =
      List.range' cid (buildLoop c lines cid buf).length := by
  induction lines generalizing cid buf with
  | nil =>
    by_cases h : buf = [] <;> simp [buildLoop, h, List.range']
  | cons line rest ih =>
    by_cases h : buf.length + line.length > c
    · simp [buildLoop, h, ih, List.range']
    · simp [buildLoop, h, ih]

theorem buildLoop_size_le (c : Nat) (lines : List (List Nat)) (cid : Nat) (buf : List Nat)
    (hbuf : buf.length ≤ c) (hlines : ∀ l ∈ lines, l.length ≤ c) :
    ∀ ch ∈ buildLoop c lines cid buf, ch.data.length ≤ c := by
  induction lines generalizing cid buf with
  | nil =>
    intro ch hch
    by_cases h : buf = [] <;> simp [buildLoop, h] at hch
    subst hch; exact hbuf
  | cons line rest ih =>
    intro ch hch
    by_cases h : buf.length + line.length > c
    · simp only [buildLoop, if_pos h] at hch
      rcases List.mem_cons.mp hch with h1 | h1
      · subst h1; exact hbuf
      · exact ih (cid + 1) line (hlines line (List.mem_cons_self _ _))
          (fun l hl => hlines l (List.mem_cons_of_mem _ hl)) ch h1
    · simp only [buildLoop, if_neg h] at hch
      refine ih cid (buf ++ line) ?_ ?_ ch hch
      · simpa using Nat.le_of_not_lt h
      · intro l hl; exact hlines l (List.mem_cons_of_mem _ hl)

theorem buildLoop_pos_len (c : Nat) (lines : List (List Nat)) (cid : Nat) (buf : List Nat)
    (hlines : ∀ l ∈ lines, l.length ≤ c) :
    ∀ ch ∈ buildLoop c lines cid buf, 1 ≤ ch.data.length := by
  induction lines generalizing cid buf with
  | nil =>
    intro ch hch
    by_cases h : buf = [] <;> simp [buildLoop, h] at hch
    subst hch
    exact List.length_pos.mpr h
  | cons line rest ih =>
    intro ch hch
    by_cases h : buf.length + line.length > c
    · simp only [buildLoop, if_pos h] at hch
      rcases List.mem_cons.mp hch with h1 | h1
      · subst h1
        show 1 ≤ buf.length
        have hl := hlines line (List.mem_cons_self _ _)
        omega
      · exact ih (cid + 1) line
          (fun l hl => hlines l (List.mem_cons_of_mem _ hl)) ch h1
    · simp only [buildLoop, if_neg h] at hch
      exact ih cid (buf ++ line)
        (fun l hl => hlines l (List.mem_cons_of_mem _ hl)) ch hch

/-- Packing a single line longer than the ceiling: the empty buffer is flushed
as a zero-byte chunk 1, then the oversized line is flushed as chunk 2. -/
theorem build_single_oversized (cr : Nat) (l : List Nat)
    (h : cr < l.length) (hne : l ≠ []) :
    buildChunks cr [l] = [⟨1, []⟩, ⟨2, l⟩] := by
  simp only [buildChunks, buildLoop, List.length_nil, List.nil_append]
  rw [if_pos (by omega), if_neg hne]

theorem replicate_big_len (n : Nat) : (List.replicate (n + 1) 0).length = n + 1 :=
  List.length_replicate _ _

theorem replicate_big_ne_nil (n : Nat) : List.replicate (n + 1) 0 ≠ ([] : List Nat) := by
  apply List.ne_nil_of_length_pos
  rw [List.length_replicate]
  omega

/-- Claim C1 counterexample: with a single record line of CHUNK_BYTES + 1 bytes
the builder emits a chunk whose byte length exceeds CHUNK_BYTES, so the size
bound does not hold universally without a precondition on record sizes. -/
theorem C1_counterexample :
    ∃ ch ∈ buildChunks CHUNK_BYTES [List.replicate (CHUNK_BYTES + 1) 0],
      CHUNK_BYTES < ch.data.length := by
  refine ⟨⟨2, List.replicate (CHUNK_BYTES + 1) 0⟩, ?_, ?_⟩
  · rw [build_single_oversized CHUNK_BYTES (List.replicate (CHUNK_BYTES + 1) 0)
      (by rw [replicate_big_len]; omega) (replicate_big_ne_nil _)]
    simp
  · show CHUNK_BYTES < (List.replicate (CHUNK_BYTES + 1) 0).length
    rw [replicate_big_len]
    omega

/-- Claim C1 (amended): provided every serialized record line is at most
CHUNK_BYTES bytes, every chunk the builder emits — including the final flushed
chunk — has byte length at most CHUNK_BYTES. -/
theorem C1_size_bound (lines : List (List Nat))
    (h : ∀ l ∈ lines, l.length ≤ CHUNK_BYTES) :
    ∀ ch ∈ buildChunks CHUNK_BYTES lines, ch.data.length ≤ CHUNK_BYTES :=
  buildLoop_size_le CHUNK_BYTES lines 1 [] (by simp) h

theorem C1_size_bound_witness :
    (∀ l ∈ ([[0], [1, 2]] : List (List Nat)), l.length ≤ CHUNK_BYTES) ∧
      (∀ ch ∈ buildChunks CHUNK_BYTES [[0], [1, 2]], ch.data.length ≤ CHUNK_BYTES) :=
  ⟨by decide, C1_size_bound [[0], [1, 2]] (by decide)⟩

/-- Claim C3: concatenating the bytes of all emitted chunks in chunk-id order
yields exactly the concatenation of the serialized record lines in input
order — no line dropped, duplicated, or reordered. -/
theorem C3_concat_exact (lines : List (List Nat)) :
    ((buildChunks CHUNK_BYTES lines).map Chunk.data).flatten = lines.flatten := by
  simpa using buildLoop_flatten CHUNK_BYTES lines 1 []

/-- Claim C5: the chunk ids assigned by the build phase are exactly
1, 2, 3, ... in emission order — contiguous, no gaps, no duplicates. -/
theorem C5_contiguous_ids (lines : List (List Nat)) :
    (buildChunks CHUNK_BYTES lines).map Chunk.chunk_id =
      List.range' 1 (buildChunks CHUNK_BYTES lines).length :=
  buildLoop_ids CHUNK_BYTES lines 1 []

/-- Claim C4, evaluating the code at the failing input: a stream whose single
record line is CHUNK_BYTES + 1 bytes makes the build complete normally,
emitting an empty chunk 1 and an oversized chunk 2, instead of surfacing an
error as the spec requires. -/
theorem C4_no_error_on_oversized :
    buildChunks CHUNK_BYTES [List.replicate (CHUNK_BYTES + 1) 0] =
      [⟨1, []⟩, ⟨2, List.replicate (CHUNK_BYTES + 1) 0⟩] :=
  build_single_oversized CHUNK_BYTES (List.replicate (CHUNK_BYTES + 1) 0)
    (by rw [replicate_big_len]; omega) (replicate_big_ne_nil _)

/-- Packing three lines where the first two fit together but the third would
overflow: the builder flushes the first two as chunk 1 and the third as
chunk 2. -/
theorem build_three_pack_two (cr : Nat) (a b c : List Nat)
    (hab : a.length + b.length ≤ cr)
    (habc : cr < a.length + b.length + c.length)
    (hcne : c ≠ []) :
    buildChunks cr [a, b, c] = [⟨1, a ++ b⟩, ⟨2, c⟩] := by
  simp only [buildChunks, buildLoop, List.length_nil, List.nil_append, List.length_append]
  rw [if_neg (by omega), if_neg (by omega), if_pos (by omega), if_neg hcne]

/-- Claim C9: three records of 400000 bytes each with ceiling 999000 pack into
exactly two chunks — chunk 1 holds records 1 and 2 (800000 bytes), chunk 2
holds record 3 (400000 bytes). -/
theorem C9_three_records_two_chunks :
    buildChunks 999000
        [List.replicate 400000 1, List.replicate 400000 2, List.replicate 400000 3] =
      [⟨1, List.replicate 400000 1 ++ List.replicate 400000 2⟩,
       ⟨2, List.replicate 400000 3⟩] ∧
      ((buildChunks 999000
          [List.replicate 400000 1, List.replicate 400000 2, List.replicate 400000 3]).map
        (fun ch => ch.data.length)) = [800000, 400000] := by
  have e := build_three_pack_two 999000
    (List.replicate 400000 1) (List.replicate 400000 2) (List.replicate 400000 3)
    (by rw [List.length_replicate, List.length_replicate]; omega)
    (by rw [List.length_replicate, List.length_replicate, List.length_replicate]; omega)
    (by apply List.ne_nil_of_length_pos; rw [List.length_replicate]; omega)
  refine ⟨e, ?_⟩
  rw [e]
  simp only [List.map_cons, List.map_nil, List.length_append, List.length_replicate]

/-- Claim C10: when every serialized line is at most CHUNK_BYTES bytes, every
emitted chunk is non-empty; and the empty record stream produces no chunks. -/
theorem C10_nonempty_chunks (lines : List (List Nat))
    (h : ∀ l ∈ lines, l.length ≤ CHUNK_BYTES) :
    (∀ ch ∈ buildChunks CHUNK_BYTES lines, 1 ≤ ch.data.length) ∧
      buildChunks CHUNK_BYTES ([] : List (List Nat)) = [] :=
  ⟨buildLoop_pos_len CHUNK_BYTES lines 1 [] h, rfl⟩

theorem C10_nonempty_chunks_witness :
    (∀ l ∈ ([[7]] : List (List Nat)), l.length ≤ CHUNK_BYTES) ∧
      ((∀ ch ∈ buildChunks CHUNK_BYTES [[7]], 1 ≤ ch.data.length) ∧
        buildChunks CHUNK_BYTES ([] : List (List Nat)) = []) :=
  ⟨by decide, C10_nonempty_chunks [[7]] (by decide)⟩

/-- The main loop shared by src/post_chunks_turboDA.py and
src/post_chunks_seq_confirm.py: `done` is the set of chunk ids read from the
progress log at startup (it is not updated during the run); each manifest
chunk id in `done` is skipped, every other one is submitted and its entry
appended to the log. The result is (ids submitted this run, final log ids). -/
def uploadLoop (done : List Nat) :
    List Nat → List Nat → List Nat → List Nat × List Nat
  | [], submitted, lg => (submitted, lg)
  | cid :: rest, submitted, lg =>
    if cid ∈ done then uploadLoop done rest submitted lg
    else uploadLoop done rest (submitted ++ [cid]) (lg ++ [cid])

/-- One run of the submission phase: the skip set is the startup log content,
submissions start empty, and the log grows from its startup content. -/
def uploadRun (manifest logIds : List Nat) : List Nat × List Nat :=
  uploadLoop logIds manifest [] logIds

theorem uploadLoop_log_mem (done : List Nat) (m : List Nat) (s lg : List Nat) (x : Nat)
    (hx : x ∈ lg ∨ (x ∈ m ∧ x ∉ done)) :
    x ∈ (uploadLoop done m s lg).2 := by
  induction m generalizing s lg with
  | nil =>
    rcases hx with h | h
    · exact h
    · exact absurd h.1 (List.not_mem_nil x)
  | cons cid rest ih =>
    by_cases hc : cid ∈ done
    · simp only [uploadLoop, if_pos hc]
      refine ih s lg ?_
      rcases hx with h | ⟨hm, hd⟩
      · exact Or.inl h
      · rcases List.mem_cons.mp hm with h1 | h1
        · exact absurd (h1 ▸ hc) hd
        · exact Or.inr ⟨h1, hd⟩
    · simp only [uploadLoop, if_neg hc]
      refine ih (s ++ [cid]) (lg ++ [cid]) ?_
      rcases hx with h | ⟨hm, hd⟩
      · exact Or.inl (List.mem_append_left _ h)
      · rcases List.mem_cons.mp hm with h1 | h1
        · exact Or.inl (List.mem_append_right _ (h1 ▸ List.mem_singleton_self _))
        · exact Or.inr ⟨h1, hd⟩

theorem uploadLoop_all_skipped (done : List Nat) (m : List Nat) (s lg : List Nat)
    (h : ∀ x ∈ m, x ∈ done) :
    (uploadLoop done m s lg).1 = s := by
  induction m generalizing s lg with
  | nil => rfl
  | cons cid rest ih =>
    have hc : cid ∈ done := h cid (List.mem_cons_self _ _)
    simp only [uploadLoop, if_pos hc]
    exact ih s lg (fun x hx => h x (List.mem_cons_of_mem _ hx))

/-- Claim C6: a second run of the submission phase against the same manifest,
starting from the log a completed first run left behind, submits zero chunks:
every manifest id is in the startup skip set, so no submit call is made. -/
theorem C6_resume_idempotent (manifest logIds : List Nat) :
    (uploadRun manifest (uploadRun manifest logIds).2).1 = [] := by
  apply uploadLoop_all_skipped
  intro x hx
  by_cases hl : x ∈ logIds
  · exact uploadLoop_log_mem logIds manifest [] logIds x (Or.inl hl)
  · exact uploadLoop_log_mem logIds manifest [] logIds x (Or.inr ⟨hx, hl⟩)

/-- A progress-log line as seen by the resume-set readers: `some cid` when the
line parses as JSON carrying a chunk_id, `none` when it is corrupt or
partially written (json.loads or the key lookup raises). -/
def readLine (l : Option Nat) : Option Nat := l

/-- Resume-set reader of src/post_chunks_turboDA.py: every line is parsed
inside try/except, and a malformed line is skipped (`pass`). -/
def resumeSetTolerant (lines : List (Option Nat)) : List Nat :=
  lines.foldl
    (fun acc l =>
      match readLine l with
      | some cid => acc ++ [cid]
      | none => acc)
    []

/-- Resume-set reader of src/post_chunks_seq_confirm.py: every line is parsed
with no exception handling, so the first malformed line raises and the whole
computation aborts (modelled as `none`). -/
def resumeSetStrict (lines : List (Option Nat)) : Option (List Nat) :=
  lines.foldl
    (fun acc l =>
      match acc, readLine l with
      | some ids, some cid => some (ids ++ [cid])
      | _, _ => none)
    (some [])

/-- Claim C8, evaluating both resume-set readers at the failing input
[well-formed id 1, corrupt line, well-formed id 2]: the turboDA reader skips
the corrupt line and returns exactly the well-formed ids, but the sequential
confirm reader aborts instead of completing. -/
theorem C8_strict_reader_aborts :
    resumeSetTolerant [some 1, none, some 2] = [1, 2] ∧
      resumeSetStrict [some 1, none, some 2] = none := by
  constructor <;> rfl

/-- Finality info carried by a status response (src/post_chunks_seq_confirm.py):
the fields the uploader reads from the response body, each possibly absent.
Opaque JSON values are modelled as naturals. -/
structure FinInfo where
  block_number : Option Nat
  block : Option Nat
  block_hash : Option Nat
  tx_hash : Option Nat
  extrinsic : Option Nat
deriving Repr, DecidableEq

/-- One poll response observed by wait_finalized: `ok` is false when the
request raised or the status was not 200 (the except branch / status check);
`stateFinalized` models data.get("state") == "Finalized" (Turbo format),
`finalizedFlag` models a truthy data.get("finalized") (Hex format);
`dataField` is data["data"], `whole` is the response object itself. -/
structure Resp where
  ok : Bool
  stateFinalized : Bool
  finalizedFlag : Bool
  dataField : FinInfo
  whole : FinInfo
deriving Repr, DecidableEq

/-- The test wait_finalized applies to one response: on a Turbo-finalized
response it returns data["data"], on a Hex-finalized response the object
itself, and otherwise nothing (the loop keeps polling). -/
def respFinal (r : Resp) : Option FinInfo :=
  if r.ok then
    if r.stateFinalized then some r.dataField
    else if r.finalizedFlag then some r.whole
    else none
  else none

/-- wait_finalized over a schedule of poll responses: it returns the number of
polls consumed before the finalizing one, together with that response's info;
`none` means every scheduled response was non-final and the loop is still
polling. -/
def wait_finalized : List Resp → Option (Nat × FinInfo)
  | [] => none
  | r :: rest =>
    (respFinal r).elim
      ((wait_finalized rest).map (fun p => (p.1 + 1, p.2)))
      (fun i => some (0, i))

/-- The progress-log entry written by the main loop of
src/post_chunks_seq_confirm.py after wait_finalized returns. -/
structure ProgressEntry where
  chunk_id : Nat
  submission_id : Nat
  avail_block : Option Nat
  block_hash : Option Nat
  avail_tx : Option Nat
deriving Repr, DecidableEq

/-- Entry construction: avail_block is info.get("block_number") or
info.get("block"); avail_tx is info.get("tx_hash") or info.get("extrinsic"). -/
def mkEntry (cid sid : Nat) (info : FinInfo) : ProgressEntry :=
  { chunk_id := cid
    submission_id := sid
    avail_block := (info.block_number).elim info.block (fun b => some b)
    block_hash := info.block_hash
    avail_tx := (info.tx_hash).elim info.extrinsic (fun t => some t) }

/-- Observable events of one chunk's confirm-and-log phase: each poll of
get_status (tagged with whether it reported finality) and each append to the
progress log. -/
inductive ChunkEv where
  | pollEv (finalized : Bool)
  | writeEv (entry : ProgressEntry)
deriving Repr, DecidableEq

/-- The polls wait_finalized performs: one non-final poll per skipped response,
stopping at the first finalizing response. -/
def pollTrace : List Resp → List ChunkEv
  | [] => []
  | r :: rest =>
    (respFinal r).elim
      (ChunkEv.pollEv false :: pollTrace rest)
      (fun _ => [ChunkEv.pollEv true])

/-- The per-chunk event trace of the sequential uploader with finality wait:
poll until finalized, then append exactly one entry built from the finalizing
response; if finality never arrives in the schedule, nothing is written. -/
def processChunk (cid sid : Nat) (polls : List Resp) : List ChunkEv :=
  (wait_finalized polls).elim
    (pollTrace polls)
    (fun p => pollTrace polls ++ [ChunkEv.writeEv (mkEntry cid sid p.2)])

theorem wait_finalized_replicate (n : Nat) (nf f : Resp) (rest : List Resp)
    (info : FinInfo) (hnf : respFinal nf = none) (hf : respFinal f = some info) :
    wait_finalized (List.replicate n nf ++ f :: rest) = some (n, info) := by
  induction n with
  | zero => simp [wait_finalized, hf]
  | succ k ih => simp [List.replicate_succ, wait_finalized, hnf, ih]

theorem pollTrace_replicate (n : Nat) (nf f : Resp) (rest : List Resp)
    (info : FinInfo) (hnf : respFinal nf = none) (hf : respFinal f = some info) :
    pollTrace (List.replicate n nf ++ f :: rest) =
      List.replicate n (ChunkEv.pollEv false) ++ [ChunkEv.pollEv true] := by
  induction n with
  | zero => simp [pollTrace, hf]
  | succ k ih => simp [List.replicate_succ, pollTrace, hnf, ih]

/-- Claim C7: when the finality poll returns non-finalized n times and then a
finalizing response, the per-chunk trace is exactly n non-final polls, the
finalizing poll, and then a single log append whose block and transaction
references come from that finalizing response — no entry is written during
the n earlier polls. -/
theorem C7_entry_after_finality (cid sid n : Nat) (nf f : Resp) (rest : List Resp)
    (info : FinInfo) (hnf : respFinal nf = none) (hf : respFinal f = some info) :
    processChunk cid sid (List.replicate n nf ++ f :: rest) =
      List.replicate n (ChunkEv.pollEv false) ++
        [ChunkEv.pollEv true, ChunkEv.writeEv (mkEntry cid sid info)] := by
  rw [processChunk, wait_finalized_replicate n nf f rest info hnf hf,
    pollTrace_replicate n nf f rest info hnf hf]
  simp [Option.elim]

/-- The FinInfo of a concrete Turbo-format finalizing response. -/
def turboInfo : FinInfo :=
  { block_number := some 41, block := none, block_hash := some 77
    tx_hash := some 8, extrinsic := none }

/-- A concrete non-finalized poll response. -/
def pendingResp : Resp :=
  { ok := true, stateFinalized := false, finalizedFlag := false
    dataField := { block_number := none, block := none, block_hash := none
                   tx_hash := none, extrinsic := none }
    whole := { block_number := none, block := none, block_hash := none
               tx_hash := none, extrinsic := none } }

/-- A concrete Turbo-format finalizing poll response. -/
def finalResp : Resp :=
  { ok := true, stateFinalized := true, finalizedFlag := false
    dataField := turboInfo
    whole := { block_number := none, block := none, block_hash := none
               tx_hash := none, extrinsic := none } }

theorem C7_entry_after_finality_witness :
    respFinal pendingResp = none ∧ respFinal finalResp = some turboInfo ∧
      processChunk 3 9 (List.replicate 5 pendingResp ++ finalResp :: []) =
        List.replicate 5 (ChunkEv.pollEv false) ++
          [ChunkEv.pollEv true, ChunkEv.writeEv (mkEntry 3 9 turboInfo)] :=
  ⟨rfl, rfl, C7_entry_after_finality 3 9 5 pendingResp finalResp [] turboInfo rfl rfl⟩

/-- pending[k] in src/post_chunks_turboDA_async.py: look the expected id up in
the holding map (an association list here). -/
def lookupPending (k : Nat) : List (Nat × Nat) → Option Nat
  | [] => none
  | (c, s) :: rest => if c = k then some s else lookupPending k rest

/-- pending.pop(k): remove the first binding of k from the holding map. -/
def removePending (k : Nat) : List (Nat × Nat) → List (Nat × Nat)
  | [] => []
  | (c, s) :: rest => if c = k then rest else (c, s) :: removePending k rest

/-- State of the concurrent uploader of src/post_chunks_turboDA_async.py:
completions the collector has not yet delivered, the holding map `pending`,
the writer's expected-cursor `next_id`, the manifest objects the writer has
not yet processed (chunk id, pre-existing submission id when the manifest
row already carried one), and the durable log written so far. -/
structure WState where
  toArrive : List (Nat × Nat)
  pending : List (Nat × Nat)
  next_id : Nat
  toWrite : List (Nat × Option Nat)
  written : List (Nat × Nat)
deriving Repr, DecidableEq

/-- Interleaved small-step semantics of collector and writer: the collector
may deliver the next completed (chunk_id, submission_id) into the holding map
at any time; the writer copies a manifest row that already has a submission id
straight to the log; for a row without one it can only proceed once the
expected cursor's id is present in the holding map, popping it, appending the
entry, and advancing the cursor by one. The writer's busy-wait sleep is the
absence of an enabled writer step. -/
inductive WStep : WState → WState → Prop
  | arrive (p : Nat × Nat) (rest pend : List (Nat × Nat)) (nid : Nat)
      (tw : List (Nat × Option Nat)) (lg : List (Nat × Nat)) :
      WStep ⟨p :: rest, pend, nid, tw, lg⟩ ⟨rest, p :: pend, nid, tw, lg⟩
  | writeDone (ta pend : List (Nat × Nat)) (nid cid sid : Nat)
      (tw : List (Nat × Option Nat)) (lg : List (Nat × Nat)) :
      WStep ⟨ta, pend, nid, (cid, some sid) :: tw, lg⟩
            ⟨ta, pend, nid + 1, tw, lg ++ [(cid, sid)]⟩
  | writeFresh (ta pend : List (Nat × Nat)) (nid cid : Nat)
      (tw : List (Nat × Option Nat)) (lg : List (Nat × Nat)) (sid : Nat)
      (h : lookupPending nid pend = some sid) :
      WStep ⟨ta, pend, nid, (cid, none) :: tw, lg⟩
            ⟨ta, removePending nid pend, nid + 1, tw, lg ++ [(cid, sid)]⟩

/-- Start of a run: a schedule of completions, empty holding map, cursor at 1,
the whole manifest unwritten, empty log. -/
def initW (arrivals : List (Nat × Nat)) (objs : List (Nat × Option Nat)) : WState :=
  ⟨arrivals, [], 1, objs, []⟩

theorem wstep_ids_preserved {s t : WState} (h : WStep s t) :
    t.written.map Prod.fst ++ t.toWrite.map Prod.fst =
      s.written.map Prod.fst ++ s.toWrite.map Prod.fst := by
  cases h <;> simp

theorem reach_ids (arrivals : List (Nat × Nat)) (objs : List (Nat × Option Nat))
    (s : WState) (h : Relation.ReflTransGen WStep (initW arrivals objs) s) :
    s.written.map Prod.fst ++ s.toWrite.map Prod.fst = objs.map Prod.fst := by
  induction h with
  | refl => simp [initW]
  | tail _ hstep ih => rw [wstep_ids_preserved hstep, ih]

/-- Claim C2: when the manifest rows carry strictly increasing chunk ids, then
in every state the uploader can reach — whatever order completions arrive
in — the chunk ids of the durable log are strictly increasing in write order:
of two written entries, the one with the smaller chunk id was written first. -/
theorem C2_log_in_order (arrivals : List (Nat × Nat)) (objs : List (Nat × Option Nat))
    (s : WState) (hsort : (objs.map Prod.fst).Pairwise (· < ·))
    (hreach : Relation.ReflTransGen WStep (initW arrivals objs) s) :
    (s.written.map Prod.fst).Pairwise (· < ·) := by
  have key := reach_ids arrivals objs s hreach
  rw [← key] at hsort
  exact (List.pairwise_append.mp hsort).1

theorem C2_log_in_order_witness :
    (([(1, none), (2, none)] : List (Nat × Option Nat)).map Prod.fst).Pairwise (· < ·) ∧
      ((WState.mk [] [] 3 [] [(1, 10), (2, 20)]).written.map Prod.fst).Pairwise (· < ·) := by
  refine ⟨by decide, C2_log_in_order [(2, 20), (1, 10)] [(1, none), (2, none)] _ (by decide) ?_⟩
  refine Relation.ReflTransGen.tail (Relation.ReflTransGen.tail
    (Relation.ReflTransGen.tail
      (Relation.ReflTransGen.single
        (WStep.arrive (2, 20) [(1, 10)] [] 1 [(1, none), (2, none)] []))
      (WStep.arrive (1, 10) [] [(2, 20)] 1 [(1, none), (2, none)] []))
    (WStep.writeFresh [] [(1, 10), (2, 20)] 1 1 [(2, none)] [] 10 (by decide))) ?_
  exact WStep.writeFresh [] [(2, 20)] 2 2 [] [(1, 10)] 20 (by decide)

end LensDA
